import Mathlib

/-!
Shallow embedding of the micro-swiss build-time module discovery pipeline
(`build.rs`) and its runtime consumers (`src/module_registry.rs`,
`src/main.rs`).

Strings are modelled through their character lists (`String.data`); the
Rust `str` operations used by the code (`trim`, `starts_with`, `ends_with`,
`contains`, `find`, slicing at pattern boundaries, `lines`) are given
char-level models below.  All slice indices in the Rust code are produced
by `find` and consumed at the very same position, so char indices and byte
indices cut the string at identical boundaries.
-/

namespace MicroSwiss

/-- Model of Rust `char::is_whitespace` restricted to the ASCII whitespace
characters that occur in source files. -/
def isWsChar (c : Char) : Bool :=
  c = ' ' || c = '\t' || c = '\r' || c = '\n'

/-- Drop leading whitespace from a character list. -/
def dropWsLeft : List Char → List Char
  | [] => []
  | c :: cs => if isWsChar c then dropWsLeft cs else c :: cs

/-- Model of Rust `str::trim` on character lists: strip whitespace from
both ends. -/
def trimList (s : List Char) : List Char :=
  (dropWsLeft (dropWsLeft s).reverse).reverse

/-- Model of Rust `str::trim`. -/
def rustTrim (s : String) : String :=
  ⟨trimList s.data⟩

/-- Model of Rust `str::starts_with` for a string pattern. -/
def strStarts (s pat : String) : Bool :=
  pat.data.isPrefixOf s.data

/-- Model of Rust `str::ends_with` for a string pattern. -/
def strEnds (s pat : String) : Bool :=
  pat.data.isSuffixOf s.data

/-- First index (in characters) at which `pat` occurs in `s`, scanning
left to right: the model of Rust `str::find` with a string pattern. -/
def findSubIdx (s pat : List Char) : Option Nat :=
  match s with
  | [] => if pat.isEmpty then some 0 else none
  | c :: cs =>
    if pat.isPrefixOf (c :: cs) then some 0
    else (findSubIdx cs pat).map (· + 1)

/-- Model of Rust `str::find` with a string pattern. -/
def strFind (s pat : String) : Option Nat :=
  findSubIdx s.data pat.data

/-- Model of Rust `str::contains` with a string pattern. -/
def strContains (s pat : String) : Bool :=
  (strFind s pat).isSome

/-- Drop `n` characters from the front: model of slicing `&s[i..]` where
`i` is a boundary produced by `find`. -/
def strDrop (s : String) (n : Nat) : String :=
  ⟨s.data.drop n⟩

/-- Keep the first `n` characters: model of slicing `&s[..i]`. -/
def strTake (s : String) (n : Nat) : String :=
  ⟨s.data.take n⟩

/-- Drop the last `n` characters: used to model `strip_suffix` once
`ends_with` has been checked. -/
def strDropRight (s : String) (n : Nat) : String :=
  ⟨s.data.take (s.data.length - n)⟩

/-- Split a character list at newline characters. -/
def splitNl : List Char → List (List Char)
  | [] => [[]]
  | c :: cs =>
    if c = '\n' then [] :: splitNl cs
    else
      match splitNl cs with
      | [] => [[c]]
      | l :: ls => (c :: l) :: ls

/-- Strip one trailing carriage return, as Rust `str::lines` does for
lines terminated by `"\r\n"`. -/
def stripCR (l : List Char) : List Char :=
  if l.getLast? = some '\r' then l.dropLast else l

/-- Post-process the chunks produced by `splitNl`: every chunk but the
last was terminated by `'\n'` and loses a trailing `'\r'`; the last chunk
had no terminator and is dropped when empty (Rust's optional final line
ending). -/
def rustLinesCore : List (List Char) → List (List Char)
  | [] => []
  | [l] => if l.isEmpty then [] else [l]
  | l :: ls => stripCR l :: rustLinesCore ls

/-- Model of Rust `str::lines`. -/
def rustLines (s : String) : List String :=
  (rustLinesCore (splitNl s.data)).map (fun l => ⟨l⟩)

end MicroSwiss

namespace MicroSwiss

/-- `ModuleInfo` from `build.rs`: one discovered module. -/
structure ModuleInfo where
  module_name : String
  struct_name : String
deriving DecidableEq, Repr

/-- The trimmed-line part of the loop body of `extract_module_info`
(`build.rs`): on a trimmed line that starts with `pub struct ` and ends
with `;`, the declared type name (the text between prefix and suffix). -/
def structTail (line : String) : String :=
  strDropRight (strDrop line 11) 1

/-- The interface-evidence pattern `extract_module_info` searches the
whole file for, for a candidate type name. -/
def evidenceFor (structName : String) : String :=
  "impl ToolModule for " ++ structName

/-- One iteration of the line loop of `extract_module_info`: `some X`
when this line declares a zero-field public struct `X` and the file
content contains `impl ToolModule for X`; `none` otherwise (the Rust
loop then continues with the next line). -/
def lineStruct? (content : String) (rawLine : String) : Option String :=
  let line := rustTrim rawLine
  if strStarts line "pub struct " && strEnds line ";" then
    let struct_name := structTail line
    if strContains content (evidenceFor struct_name) then
      some struct_name
    else
      none
  else
    none

/-- `extract_module_info` from `build.rs`, after a successful
`fs::read_to_string`: scan the lines in order and return a descriptor
for the first qualifying struct, if any. -/
def extract_module_info (content : String) (module_name : String) :
    Option ModuleInfo :=
  ((rustLines content).findSome? (lineStruct? content)).map
    (fun sn => { module_name := module_name, struct_name := sn })

/-- State of a module directory's `mod.rs` entry file on disk. -/
inductive FileState where
  | missing
  | unreadable
  | readable (content : String)
deriving DecidableEq, Repr

/-- One sub-directory of the modules root. -/
structure ModuleDir where
  name : String
  modFile : FileState
deriving DecidableEq, Repr

/-- One result of the `fs::read_dir` iterator over the modules root:
an errored entry, a non-directory entry, or a module sub-directory. -/
inductive RootEntry where
  | err
  | file (name : String)
  | dir (d : ModuleDir)
deriving DecidableEq, Repr

/-- The modules root directory as `fs::read_dir` presents it: either the
read fails, or it yields a list of entries in enumeration order. -/
inductive RootState where
  | unreadable
  | readable (entries : List RootEntry)
deriving DecidableEq, Repr

/-- The body of the entry loop of `scan_modules_directory` (`build.rs`):
errored entries and non-directories are skipped; a directory is probed
for `mod.rs` and, when it is readable, handed to `extract_module_info`. -/
def scanEntry : RootEntry → Option ModuleInfo
  | .err => none
  | .file _ => none
  | .dir d =>
    match d.modFile with
    | .missing => none
    | .unreadable => none
    | .readable content => extract_module_info content d.name

/-- `scan_modules_directory` from `build.rs`: an unreadable root yields
no modules; otherwise each entry contributes its descriptor, if any, in
enumeration order. -/
def scan_modules_directory : RootState → List ModuleInfo
  | .unreadable => []
  | .readable entries => entries.filterMap scanEntry

/-- The body of the line loop of `extract_command_ids` (`build.rs`): on a
trimmed line containing both `.arg(` and `Arg::new(`, the text between
the first `Arg::new("` and the next `"` after it, when both are found;
`none` on every other line. -/
def extractLineId (rawLine : String) : Option String :=
  let line := rustTrim rawLine
  if strContains line ".arg(" && strContains line "Arg::new(" then
    match strFind line "Arg::new(\"" with
    | some start =>
      let rest := strDrop line (start + 10)
      match strFind rest "\"" with
      | some stop => some (strTake rest stop)
      | none => none
    | none => none
  else
    none

/-- `extract_command_ids` from `build.rs`, after a successful
`fs::read_to_string`: each line contributes its extracted identifier, if
any, in file order. -/
def extract_command_ids (content : String) : List String :=
  (rustLines content).filterMap extractLineId

/-- Reading `src/modules/{name}/mod.rs` back from the tree, as the
generator does when collecting command identifiers: the first directory
entry with that name whose entry file is readable. -/
def readModFile (rs : RootState) (name : String) : Option String :=
  match rs with
  | .unreadable => none
  | .readable entries =>
    entries.findSome? fun e =>
      match e with
      | .dir d =>
        if d.name = name then
          match d.modFile with
          | .readable content => some content
          | _ => none
        else none
      | _ => none

/-- The command identifiers one discovered module contributes to the
generated catalogue: the extraction result when its entry file is
readable, nothing otherwise (`if let Some(command_ids) = ...`). -/
def moduleIds (readFile : String → Option String) (m : ModuleInfo) :
    List String :=
  ((readFile m.module_name).map extract_command_ids).getD []

/-- The full generated command-identifier catalogue, i.e. the value the
generated `get_all_command_ids` returns: per-module lists concatenated in
scan order. -/
def get_all_command_ids (modules : List ModuleInfo)
    (readFile : String → Option String) : List String :=
  modules.flatMap (moduleIds readFile)

/-! ### Generated artifact text

`generate_module_code` emits two files, one `writeln!` per line; each
emitted file is the concatenation of its lines, each followed by a
newline. -/

/-- The lines of the generated `modules.rs` (module inclusion
directives). -/
def modulesRsLines (manifestDir : String) (modules : List ModuleInfo) :
    List String :=
  "// Auto-generated module declarations" ::
    modules.flatMap (fun m =>
      ["#[path = \"" ++ manifestDir ++ "/src/modules/" ++ m.module_name
          ++ "/mod.rs\"]",
       "pub mod " ++ m.module_name ++ ";"])

/-- The lines of the registration section of the generated
`generated_modules.rs`. -/
def registrationLines (modules : List ModuleInfo) : List String :=
  ["// Auto-generated module registration",
   "pub fn register_modules() -> Vec<ToolModuleBox> \x7b",
   "    vec!["] ++
  modules.map (fun m => "        Box::new(" ++ m.struct_name ++ "),") ++
  ["    ]", "\x7d"]

/-- The lines of the command-identifier section of the generated
`generated_modules.rs`. -/
def commandIdLines (ids : List String) : List String :=
  ["// Auto-generated command detection",
   "pub fn get_all_command_ids() -> Vec<&\x27static str> \x7b",
   "    vec!["] ++
  ids.map (fun id => "        \"" ++ id ++ "\",") ++
  ["    ]", "\x7d"]

/-- All lines of the generated `generated_modules.rs`. -/
def generatedModulesLines (modules : List ModuleInfo)
    (readFile : String → Option String) : List String :=
  ("// Auto-generated imports" ::
      modules.map (fun m =>
        "use crate::" ++ m.module_name ++ "::" ++ m.struct_name ++ ";")) ++
  [""] ++ registrationLines modules ++
  [""] ++ commandIdLines (get_all_command_ids modules readFile)

/-- Byte content of an emitted file: every `writeln!` terminates its
line with a newline. -/
def fileText (lines : List String) : String :=
  String.join (lines.map (fun l => l ++ "\n"))

/-- The scan-and-generate step of `build.rs` as a whole: scan the modules
root, then emit the two generated artifacts (`modules.rs`,
`generated_modules.rs`) for the discovered modules, re-reading each
module's entry file for command identifiers. -/
def generatePipeline (manifestDir : String) (rs : RootState) :
    String × String :=
  let modules := scan_modules_directory rs
  (fileText (modulesRsLines manifestDir modules),
   fileText (generatedModulesLines modules (readModFile rs)))

/-! ### Runtime registry and dispatch loop -/

/-- The parsed command-line input shared by all modules: for the dispatch
loop only membership queries (`ArgMatches::contains_id`) matter. -/
structure Matches where
  contains_id : String → Bool

/-- A runtime module instance as the dispatch loop sees it: a diagnostic
name and an `execute` that either succeeds or fails with a message. -/
structure RtModule where
  name : String
  execute : Matches → Except String Unit

/-- Semantics of the generated `register_modules` body
(`vec![Box::new(S1), Box::new(S2), ...]`): one instance per descriptor,
in scan order, where `inst` gives the instance a descriptor's struct
constructs. -/
def register_modules (descriptors : List ModuleInfo)
    (inst : ModuleInfo → RtModule) : List RtModule :=
  descriptors.map inst

/-- `ModuleRegistry` from `src/module_registry.rs`. -/
structure ModuleRegistry where
  modules : List RtModule

/-- `ModuleRegistry::new`: store the result of one call to the generated
registration function; construction is total. -/
def ModuleRegistry.new (register : Unit → List RtModule) : ModuleRegistry :=
  { modules := register () }

/-- Observable outcome of the dispatch loop in `main` (`src/main.rs`)
after argument parsing. -/
inductive RunResult where
  | failed (moduleName : String) (msg : String)
  | exitZero
  | exitNonZeroNoCommand
deriving DecidableEq, Repr

/-- The process exit status each outcome produces (`process::exit(1)` on
a module failure, `process::exit(1)` when no catalogued command was
present, normal return otherwise). -/
def RunResult.exitCode : RunResult → Nat
  | .failed _ _ => 1
  | .exitZero => 0
  | .exitNonZeroNoCommand => 1

/-- The module loop of `main` (`src/main.rs`): call each module's
`execute` in registry order; on the first failure print the module's
name and message and exit 1 immediately; after each success mark
`executed` when any catalogued identifier is present in the parsed
input; after the loop exit 1 when `executed` is still false.  Returns
the names of the modules whose `execute` was called, in call order,
together with the outcome. -/
def runModules (commandIds : List String) (parsed : Matches) :
    List RtModule → Bool → List String × RunResult
  | [], executed =>
    ([], if executed then .exitZero else .exitNonZeroNoCommand)
  | m :: rest, executed =>
    match m.execute parsed with
    | .error e => ([m.name], .failed m.name e)
    | .ok _ =>
      let executed :=
        executed || commandIds.any (fun id => parsed.contains_id id)
      let next := runModules commandIds parsed rest executed
      (m.name :: next.1, next.2)

/-- The dispatch phase of `main` for a registry built over descriptors
`ds`: run every instance in registry order against the parsed input,
with the generated catalogue deciding the final exit. -/
def mainDispatch (ds : List ModuleInfo) (inst : ModuleInfo → RtModule)
    (readFile : String → Option String) (parsed : Matches) :
    List String × RunResult :=
  runModules (get_all_command_ids ds readFile) parsed
    ((ModuleRegistry.new (fun _ => register_modules ds inst)).modules) false

/-! ### Occurrence predicates and helper lemmas -/

/-- `pat` occurs in `s` at position `i`. -/
def OccursAt (s pat : List Char) (i : Nat) : Prop :=
  pat <+: s.drop i

/-- `i` is the position of the leftmost occurrence of `pat` in `s`. -/
def FirstOccurAt (s pat : List Char) (i : Nat) : Prop :=
  OccursAt s pat i ∧ ∀ j, j < i → ¬ OccursAt s pat j

theorem findSome?_isSome_of_mem {α β : Type} {f : α → Option β} {a : α} :
    ∀ {l : List α}, a ∈ l → f a ≠ none → (l.findSome? f).isSome = true := by
  intro l
  induction l with
  | nil => intro h; cases h
  | cons x xs ih =>
    intro hmem hne
    rw [List.findSome?]
    cases hfx : f x with
    | some b => rfl
    | none =>
      rcases List.mem_cons.mp hmem with rfl | hmem'
      · exact absurd hfx hne
      · exact ih hmem' hne

theorem findSome?_first {α β : Type} {f : α → Option β} :
    ∀ {l : List α} {b : β}, l.findSome? f = some b →
      ∃ i a, l.get? i = some a ∧ f a = some b ∧
        ∀ j a', j < i → l.get? j = some a' → f a' = none := by
  intro l
  induction l with
  | nil => intro b h; rw [List.findSome?] at h; cases h
  | cons x xs ih =>
    intro b h
    rw [List.findSome?] at h
    cases hfx : f x with
    | some c =>
      rw [hfx] at h
      cases h
      exact ⟨0, x, rfl, hfx, fun j a' hj _ => absurd hj (Nat.not_lt_zero j)⟩
    | none =>
      rw [hfx] at h
      obtain ⟨i, a, hget, hfa, hmin⟩ := ih h
      refine ⟨i + 1, a, hget, hfa, fun j a' hj hget' => ?_⟩
      cases j with
      | zero => cases hget'; exact hfx
      | succ j' => exact hmin j' a' (Nat.lt_of_succ_lt_succ hj) hget'

theorem findSubIdx_none_iff {s pat : List Char} :
    findSubIdx s pat = none ↔ ∀ i, ¬ OccursAt s pat i := by
  induction s with
  | nil =>
    rw [findSubIdx]
    constructor
    · intro h i hocc
      have hne : pat.isEmpty = false := by
        by_contra hc
        simp only [Bool.not_eq_false] at hc
        rw [hc] at h
        cases h
      have : pat = [] := List.prefix_nil.mp (by simpa [OccursAt] using hocc)
      rw [this] at hne
      cases hne
    · intro h
      have : ¬ pat.isEmpty = true := by
        intro hc
        exact h 0 (by simp [OccursAt, List.isEmpty_iff.mp hc])
      simp only [this, if_false]
      simp [Bool.not_eq_true] at this
      simp [this]
  | cons c cs ih =>
    rw [findSubIdx]
    by_cases hp : pat.isPrefixOf (c :: cs) = true
    · simp only [hp, if_true]
      constructor
      · intro h; cases h
      · intro h
        exact absurd (show OccursAt (c :: cs) pat 0 from by
          simpa [OccursAt] using List.isPrefixOf_iff_prefix.mp hp) (h 0)
    · simp only [Bool.not_eq_true] at hp
      simp only [hp, Bool.false_eq_true, if_false, Option.map_eq_none']
      rw [ih]
      constructor
      · intro h i hocc
        cases i with
        | zero =>
          have : pat.isPrefixOf (c :: cs) = true :=
            List.isPrefixOf_iff_prefix.mpr (by simpa [OccursAt] using hocc)
          rw [hp] at this
          cases this
        | succ i' => exact h i' (by simpa [OccursAt] using hocc)
      · intro h i hocc
        exact h (i + 1) (by simpa [OccursAt] using hocc)

theorem findSubIdx_some_iff {s pat : List Char} {i : Nat} :
    findSubIdx s pat = some i ↔ FirstOccurAt s pat i := by
  induction s generalizing i with
  | nil =>
    rw [findSubIdx]
    by_cases he : pat.isEmpty
    · simp only [he, if_true]
      have hpat : pat = [] := List.isEmpty_iff.mp he
      subst hpat
      constructor
      · intro h
        cases h
        exact ⟨List.nil_prefix, fun j hj => absurd hj (Nat.not_lt_zero j)⟩
      · intro ⟨_, hmin⟩
        cases i with
        | zero => rfl
        | succ i' => exact absurd (show OccursAt [] [] 0 from List.nil_prefix) (hmin 0 (Nat.succ_pos i'))
    · simp only [he, if_false]
      have hpat : pat ≠ [] := fun hc => he (by simp [hc])
      constructor
      · intro h; cases h
      · intro ⟨hocc, _⟩
        exact absurd (List.prefix_nil.mp (by simpa [OccursAt] using hocc)) hpat
  | cons c cs ih =>
    rw [findSubIdx]
    by_cases hp : pat.isPrefixOf (c :: cs)
    · simp only [hp, if_true]
      constructor
      · intro h
        cases h
        exact ⟨by simpa [OccursAt] using List.isPrefixOf_iff_prefix.mp hp,
               fun j hj => absurd hj (Nat.not_lt_zero j)⟩
      · intro ⟨hocc, hmin⟩
        cases i with
        | zero => rfl
        | succ i' =>
          exact absurd (show OccursAt (c :: cs) pat 0 from by
            simpa [OccursAt] using List.isPrefixOf_iff_prefix.mp hp) (hmin 0 (Nat.succ_pos i'))
    · simp only [hp, if_false]
      constructor
      · intro h
        obtain ⟨i', hi', rfl⟩ := Option.map_eq_some.mp h
        obtain ⟨hocc, hmin⟩ := ih.mp hi'
        refine ⟨by simpa [OccursAt] using hocc, fun j hj => ?_⟩
        cases j with
        | zero =>
          intro hocc0
          exact hp (List.isPrefixOf_iff_prefix.mpr (by simpa [OccursAt] using hocc0))
        | succ j' =>
          intro hoccj
          exact hmin j' (Nat.lt_of_succ_lt_succ hj) (by simpa [OccursAt] using hoccj)
      · intro ⟨hocc, hmin⟩
        cases i with
        | zero =>
          exact absurd (List.isPrefixOf_iff_prefix.mpr (by simpa [OccursAt] using hocc)) hp
        | succ i' =>
          have : findSubIdx cs pat = some i' := by
            refine ih.mpr ⟨by simpa [OccursAt] using hocc, fun j hj hoccj => ?_⟩
            exact hmin (j + 1) (Nat.succ_lt_succ hj) (by simpa [OccursAt] using hoccj)
          rw [this]
          rfl

theorem strContains_iff {s pat : String} :
    strContains s pat = true ↔ ∃ i, OccursAt s.data pat.data i := by
  rw [strContains, strFind, Option.isSome_iff_exists]
  constructor
  · intro ⟨i, hi⟩
    exact ⟨i, (findSubIdx_some_iff.mp hi).1⟩
  · intro ⟨i, hi⟩
    by_contra hc
    push_neg at hc
    have hnone : findSubIdx s.data pat.data = none := by
      cases h : findSubIdx s.data pat.data with
      | none => rfl
      | some j => exact absurd h (hc j)
    exact findSubIdx_none_iff.mp hnone i hi

/-! ### Claims -/

/-- C1: whenever the entry file of a module directory contains a trimmed
`pub struct X;` line whose `X` has `impl ToolModule for X` evidence in
the file (i.e. some line qualifies), the Scanner produces a descriptor
for that directory whose `module_name` is the directory name and whose
`struct_name` is the `X` of the first qualifying line; the descriptor is
unique, and in a directory scan that entry contributes exactly this one
descriptor. -/
theorem extract_module_info_first_qualifying (content name : String)
    (h : ∃ l ∈ rustLines content, lineStruct? content l ≠ none) :
    ∃ X i l,
      extract_module_info content name =
          some { module_name := name, struct_name := X } ∧
      (rustLines content).get? i = some l ∧
      lineStruct? content l = some X ∧
      (∀ j l', j < i → (rustLines content).get? j = some l' →
        lineStruct? content l' = none) ∧
      (∀ d, extract_module_info content name = some d →
        d = { module_name := name, struct_name := X }) ∧
      ∀ pre post : List RootEntry,
        scan_modules_directory
            (.readable (pre ++ .dir ⟨name, .readable content⟩ :: post)) =
          scan_modules_directory (.readable pre) ++
            { module_name := name, struct_name := X } ::
              scan_modules_directory (.readable post) := by
  obtain ⟨l0, hmem, hne⟩ := h
  have hs := findSome?_isSome_of_mem hmem hne
  obtain ⟨X, hX⟩ := Option.isSome_iff_exists.mp hs
  obtain ⟨i, l, hget, hfl, hmin⟩ := findSome?_first hX
  have hext : extract_module_info content name =
      some { module_name := name, struct_name := X } := by
    rw [extract_module_info, hX]; rfl
  refine ⟨X, i, l, hext, hget, hfl, hmin, ?_, ?_⟩
  · intro d hd
    rw [hext] at hd
    cases hd
    rfl
  · intro pre post
    have hentry : scanEntry (.dir ⟨name, .readable content⟩) =
        some { module_name := name, struct_name := X } := hext
    simp [scan_modules_directory, List.filterMap_append, List.filterMap_cons,
      hentry]

/-- Witness for C1 on a concrete entry file with one qualifying struct. -/
theorem extract_module_info_first_qualifying_witness :
    ∃ X i l,
      extract_module_info
          "pub struct Foo;\nimpl ToolModule for Foo" "demo" =
          some { module_name := "demo", struct_name := X } ∧
      (rustLines "pub struct Foo;\nimpl ToolModule for Foo").get? i =
        some l ∧
      lineStruct? "pub struct Foo;\nimpl ToolModule for Foo" l = some X ∧
      (∀ j l', j < i →
        (rustLines "pub struct Foo;\nimpl ToolModule for Foo").get? j =
          some l' →
        lineStruct? "pub struct Foo;\nimpl ToolModule for Foo" l' =
          none) ∧
      (∀ d, extract_module_info
          "pub struct Foo;\nimpl ToolModule for Foo" "demo" = some d →
        d = { module_name := "demo", struct_name := X }) ∧
      ∀ pre post : List RootEntry,
        scan_modules_directory
            (.readable (pre ++
              .dir ⟨"demo",
                .readable "pub struct Foo;\nimpl ToolModule for Foo"⟩ ::
                post)) =
          scan_modules_directory (.readable pre) ++
            { module_name := "demo", struct_name := X } ::
              scan_modules_directory (.readable post) :=
  extract_module_info_first_qualifying
    "pub struct Foo;\nimpl ToolModule for Foo" "demo" (by decide)

theorem lineStruct?_eq (content rawLine : String) :
    lineStruct? content rawLine =
      if strStarts (rustTrim rawLine) "pub struct "
          && strEnds (rustTrim rawLine) ";" then
        if strContains content
            (evidenceFor (structTail (rustTrim rawLine))) then
          some (structTail (rustTrim rawLine))
        else none
      else none := rfl

theorem findSome?_eq_none_of_all {α β : Type} {f : α → Option β} :
    ∀ {l : List α}, (∀ a ∈ l, f a = none) → l.findSome? f = none := by
  intro l
  induction l with
  | nil => intro _; rfl
  | cons x xs ih =>
    intro h
    rw [List.findSome?, h x (List.mem_cons_self x xs)]
    exact ih fun a ha => h a (List.mem_cons_of_mem x ha)

/-- C10: struct selection is order-insensitive within a file — if any
line of the file qualifies (no matter how many evidence-less struct
declarations precede it), the Scanner still produces a descriptor; and
a line's verdict depends on the file content only through whether the
content contains the `impl ToolModule for X` evidence, so the position
of the implementation block in the file is irrelevant. -/
theorem scanner_order_insensitive (content name : String) :
    (∀ i l X, (rustLines content).get? i = some l →
        lineStruct? content l = some X →
        ∃ Y, extract_module_info content name =
          some { module_name := name, struct_name := Y }) ∧
    ∀ c' l,
      strContains content (evidenceFor (structTail (rustTrim l))) =
        strContains c' (evidenceFor (structTail (rustTrim l))) →
      lineStruct? content l = lineStruct? c' l := by
  constructor
  · intro i l X hget hfl
    have hmem : l ∈ rustLines content := List.get?_mem hget
    have hs := findSome?_isSome_of_mem hmem (hfl ▸ Option.some_ne_none X)
    obtain ⟨Y, hY⟩ := Option.isSome_iff_exists.mp hs
    exact ⟨Y, by rw [extract_module_info, hY]; rfl⟩
  · intro c' l h
    rw [lineStruct?_eq, lineStruct?_eq, h]

/-- Witness for C10: the evidence block precedes the struct declaration,
an evidence-less struct comes first, and the module is still
discovered. -/
theorem scanner_order_insensitive_witness :
    ∃ Y, extract_module_info
        "pub struct Bar;\nimpl ToolModule for Foo\npub struct Foo;"
        "demo" = some { module_name := "demo", struct_name := Y } :=
  (scanner_order_insensitive
      "pub struct Bar;\nimpl ToolModule for Foo\npub struct Foo;"
      "demo").1 2 "pub struct Foo;" "Foo" (by decide) (by decide)

/-- C8: the discovery scan is total and best-effort — an unreadable root
yields an empty module list; errored entries, non-directories, missing
or unreadable entry files, and files in which no line qualifies all
yield no descriptor; and an entry that yields no descriptor leaves the
scan of the remaining entries unchanged. -/
theorem scan_best_effort :
    scan_modules_directory .unreadable = [] ∧
    scanEntry .err = none ∧
    (∀ name, scanEntry (.file name) = none) ∧
    (∀ name, scanEntry (.dir ⟨name, .missing⟩) = none) ∧
    (∀ name, scanEntry (.dir ⟨name, .unreadable⟩) = none) ∧
    (∀ name content,
      (∀ l ∈ rustLines content, lineStruct? content l = none) →
      scanEntry (.dir ⟨name, .readable content⟩) = none) ∧
    ∀ e rest, scanEntry e = none →
      scan_modules_directory (.readable (e :: rest)) =
        scan_modules_directory (.readable rest) := by
  refine ⟨rfl, rfl, fun _ => rfl, fun _ => rfl, fun _ => rfl, ?_, ?_⟩
  · intro name content h
    show extract_module_info content name = none
    rw [extract_module_info, findSome?_eq_none_of_all h]
    rfl
  · intro e rest h
    show List.filterMap scanEntry (e :: rest) = List.filterMap scanEntry rest
    rw [List.filterMap_cons, h]

/-- Witness for C8: a file declaring a struct with no interface evidence
is skipped and does not disturb the rest of the scan. -/
theorem scan_best_effort_witness :
    scanEntry (.dir ⟨"m", .readable "pub struct Bar;"⟩) = none ∧
    scan_modules_directory
        (.readable [.dir ⟨"m", .readable "pub struct Bar;"⟩]) =
      scan_modules_directory (.readable []) :=
  ⟨scan_best_effort.2.2.2.2.2.1 "m" "pub struct Bar;" (by decide),
   scan_best_effort.2.2.2.2.2.2 _ []
     (scan_best_effort.2.2.2.2.2.1 "m" "pub struct Bar;" (by decide))⟩

theorem extractLineId_eq (rawLine : String) :
    extractLineId rawLine =
      if strContains (rustTrim rawLine) ".arg("
          && strContains (rustTrim rawLine) "Arg::new(" then
        match strFind (rustTrim rawLine) "Arg::new(\"" with
        | some start =>
          match strFind (strDrop (rustTrim rawLine) (start + 10)) "\"" with
          | some stop =>
            some (strTake (strDrop (rustTrim rawLine) (start + 10)) stop)
          | none => none
        | none => none
      else none := rfl

/-- C6: the Command-Identifier Extractor is a total, line-ordered scan —
its result is the in-order concatenation of per-line contributions; a
line whose trimmed text lacks `.arg(` or `Arg::new(` contributes
nothing, as does a line with no `Arg::new("` occurrence or no closing
quote after the first one; and a line with both substrings, a leftmost
`Arg::new("` occurrence at `i`, and a leftmost closing quote at `j`
after it contributes exactly the quoted identifier between them. -/
theorem extract_command_ids_spec (content : String) :
    (extract_command_ids content =
      (rustLines content).filterMap extractLineId) ∧
    (∀ l, ¬ (strContains (rustTrim l) ".arg(" = true ∧
          strContains (rustTrim l) "Arg::new(" = true) →
      extractLineId l = none) ∧
    (∀ l, (∀ i, ¬ OccursAt (rustTrim l).data ("Arg::new(\"").data i) →
      extractLineId l = none) ∧
    (∀ l i, FirstOccurAt (rustTrim l).data ("Arg::new(\"").data i →
      (∀ j, ¬ OccursAt ((rustTrim l).data.drop (i + 10)) ("\"").data j) →
      extractLineId l = none) ∧
    ∀ l i j,
      strContains (rustTrim l) ".arg(" = true →
      strContains (rustTrim l) "Arg::new(" = true →
      FirstOccurAt (rustTrim l).data ("Arg::new(\"").data i →
      FirstOccurAt ((rustTrim l).data.drop (i + 10)) ("\"").data j →
      extractLineId l = some ⟨((rustTrim l).data.drop (i + 10)).take j⟩ := by
  refine ⟨rfl, ?_, ?_, ?_, ?_⟩
  · intro l h
    have hfalse : (strContains (rustTrim l) ".arg("
        && strContains (rustTrim l) "Arg::new(") = false := by
      cases hA : strContains (rustTrim l) ".arg(" <;>
        cases hB : strContains (rustTrim l) "Arg::new(" <;>
          first | rfl | exact absurd ⟨hA, hB⟩ h
    rw [extractLineId_eq, hfalse]
    rfl
  · intro l h
    have hnone : strFind (rustTrim l) "Arg::new(\"" = none :=
      findSubIdx_none_iff.mpr h
    rw [extractLineId_eq]
    by_cases hc : (strContains (rustTrim l) ".arg("
        && strContains (rustTrim l) "Arg::new(") = true
    · simp only [hc, if_true, hnone]
    · rw [Bool.not_eq_true] at hc
      rw [hc]
      rfl
  · intro l i hfirst hnoq
    have hsome : strFind (rustTrim l) "Arg::new(\"" = some i :=
      findSubIdx_some_iff.mpr hfirst
    have hinner : strFind (strDrop (rustTrim l) (i + 10)) "\"" = none :=
      findSubIdx_none_iff.mpr hnoq
    rw [extractLineId_eq]
    by_cases hc : (strContains (rustTrim l) ".arg("
        && strContains (rustTrim l) "Arg::new(") = true
    · simp only [hc, if_true, hsome, hinner]
    · rw [Bool.not_eq_true] at hc
      rw [hc]
      rfl
  · intro l i j h1 h2 hfirst hq
    have hcond : (strContains (rustTrim l) ".arg("
        && strContains (rustTrim l) "Arg::new(") = true := by
      rw [h1, h2]; rfl
    have hsome : strFind (rustTrim l) "Arg::new(\"" = some i :=
      findSubIdx_some_iff.mpr hfirst
    have hinner : strFind (strDrop (rustTrim l) (i + 10)) "\"" = some j :=
      findSubIdx_some_iff.mpr hq
    rw [extractLineId_eq]
    simp only [hcond, if_true, hsome, hinner]
    rfl

/-- Witness for C6: a pattern-free line contributes nothing, and a
well-formed single-line declaration contributes its identifier. -/
theorem extract_command_ids_spec_witness :
    extractLineId "hello" = none ∧
    extractLineId "x.arg(Arg::new(\"abc\"))" = some "abc" := by
  constructor
  · exact (extract_command_ids_spec "").2.1 "hello" (by decide)
  · have h := (extract_command_ids_spec "").2.2.2.2
      "x.arg(Arg::new(\"abc\"))" 6 3 (by decide) (by decide)
      (findSubIdx_some_iff.mp (by decide))
      (findSubIdx_some_iff.mp (by decide))
    rw [h]
    rfl

/-- C9: the extractor yields at most one identifier per source line — a
full file yields at most one identifier per line of the file, and any
identifier a line yields is the one delimited by the leftmost
`Arg::new("` occurrence on that line and the first quote after it;
later `Arg::new(` calls on the same line play no part. -/
theorem extractLineId_first_occurrence_only (content : String) :
    (extract_command_ids content).length ≤ (rustLines content).length ∧
    ∀ l id, extractLineId l = some id →
      ∃ i, FirstOccurAt (rustTrim l).data ("Arg::new(\"").data i ∧
        ∃ j, FirstOccurAt ((rustTrim l).data.drop (i + 10)) ("\"").data j ∧
          id = ⟨((rustTrim l).data.drop (i + 10)).take j⟩ := by
  constructor
  · exact List.length_filterMap_le extractLineId (rustLines content)
  · intro l id h
    rw [extractLineId_eq] at h
    by_cases hc : (strContains (rustTrim l) ".arg("
        && strContains (rustTrim l) "Arg::new(") = true
    · simp only [hc, if_true] at h
      cases hfind : strFind (rustTrim l) "Arg::new(\"" with
      | none => simp only [hfind] at h; cases h
      | some i =>
        simp only [hfind] at h
        cases hinner : strFind (strDrop (rustTrim l) (i + 10)) "\"" with
        | none => simp only [hinner] at h; cases h
        | some j =>
          simp only [hinner, Option.some.injEq] at h
          exact ⟨i, findSubIdx_some_iff.mp hfind,
                 j, findSubIdx_some_iff.mp hinner, h.symm⟩
    · rw [Bool.not_eq_true] at hc
      rw [hc] at h
      cases h

/-- Witness for C9 on a line with two `Arg::new(` calls: the extracted
identifier is the one after the leftmost occurrence. -/
theorem extractLineId_first_occurrence_only_witness :
    ∃ i, FirstOccurAt
        (rustTrim ".arg(Arg::new(\"one\")).arg(Arg::new(\"two\"))").data
        ("Arg::new(\"").data i ∧
      ∃ j, FirstOccurAt
          ((rustTrim
            ".arg(Arg::new(\"one\")).arg(Arg::new(\"two\"))").data.drop
              (i + 10)) ("\"").data j ∧
        ("one" : String) =
          ⟨((rustTrim
            ".arg(Arg::new(\"one\")).arg(Arg::new(\"two\"))").data.drop
              (i + 10)).take j⟩ :=
  (extractLineId_first_occurrence_only "").2
    ".arg(Arg::new(\"one\")).arg(Arg::new(\"two\"))" "one" (by decide)

theorem data_append (a b : String) : (a ++ b).data = a.data ++ b.data := rfl

theorem strStarts_append (p r : String) : strStarts (p ++ r) p = true :=
  List.isPrefixOf_iff_prefix.mpr ⟨r.data, (data_append p r).symm⟩

/-- C2: the Registry built from the generated registration function holds
exactly one instance per Scanner descriptor, in descriptor scan order;
the generated registration body has exactly one `Box::new(...)` line per
descriptor; and `ModuleRegistry::new` stores the result of exactly one
invocation of the registration function, with no failure mode (it is a
total function). -/
theorem registry_one_instance_per_descriptor (ds : List ModuleInfo)
    (inst : ModuleInfo → RtModule) :
    (ModuleRegistry.new
      (fun _ => register_modules ds inst)).modules.length = ds.length ∧
    (∀ i, ((ModuleRegistry.new
        (fun _ => register_modules ds inst)).modules.get? i) =
      (ds.get? i).map inst) ∧
    (registrationLines ds).countP
        (fun l => strStarts l "        Box::new(") = ds.length ∧
    ∀ register : Unit → List RtModule,
      (ModuleRegistry.new register).modules = register () := by
  refine ⟨?_, ?_, ?_, fun _ => rfl⟩
  · show (register_modules ds inst).length = ds.length
    exact List.length_map ds inst
  · intro i
    show ((ds.map inst).get? i) = (ds.get? i).map inst
    exact List.get?_map inst ds i
  · show List.countP _ (_ ++ ds.map _ ++ _) = ds.length
    rw [List.countP_append, List.countP_append, List.countP_map]
    have h1 : List.countP (fun l => strStarts l "        Box::new(")
        ["// Auto-generated module registration",
         "pub fn register_modules() -> Vec<ToolModuleBox> \x7b",
         "    vec!["] = 0 := by decide
    have h2 : List.countP (fun l => strStarts l "        Box::new(")
        ["    ]", "\x7d"] = 0 := by decide
    have h3 : List.countP
        ((fun l => strStarts l "        Box::new(") ∘
          (fun m => "        Box::new(" ++ m.struct_name ++ "),"))
        ds = ds.length := by
      rw [List.countP_eq_length]
      intro m _
      show strStarts ("        Box::new(" ++ (m.struct_name ++ "),")) _ = true
      exact strStarts_append "        Box::new(" (m.struct_name ++ "),")
    rw [h1, h2, h3]
    omega

/-- C7: the generated identifier catalogue is the concatenation of the
per-module identifier lists in descriptor scan order — each module's
list appears contiguously, between the lists of the modules before and
after it — with no de-duplication: the number of copies of an
identifier in the catalogue is the sum of the copies each module
contributes; and the generated lookup-function body renders exactly
those identifiers, in that order. -/
theorem get_all_command_ids_concat (ms pre post : List ModuleInfo)
    (m : ModuleInfo) (rf : String → Option String) :
    get_all_command_ids (pre ++ m :: post) rf =
      get_all_command_ids pre rf ++ moduleIds rf m ++
        get_all_command_ids post rf ∧
    (∀ s, (get_all_command_ids ms rf).count s =
      (ms.map (fun mi => (moduleIds rf mi).count s)).sum) ∧
    commandIdLines (get_all_command_ids ms rf) =
      ["// Auto-generated command detection",
       "pub fn get_all_command_ids() -> Vec<&\x27static str> \x7b",
       "    vec!["] ++
        (get_all_command_ids ms rf).map
          (fun id => "        \"" ++ id ++ "\",") ++
      ["    ]", "\x7d"] := by
  refine ⟨?_, ?_, rfl⟩
  · show (pre ++ m :: post).flatMap _ = _
    rw [List.flatMap_append, List.flatMap_cons]
    rw [List.append_assoc]
    rfl
  · intro s
    induction ms with
    | nil => rfl
    | cons mi ms ih =>
      have ih2 : List.count s (ms.flatMap (moduleIds rf)) =
          (ms.map (fun mi => (moduleIds rf mi).count s)).sum := ih
      show List.count s (moduleIds rf mi ++ ms.flatMap (moduleIds rf)) = _
      rw [List.count_append, List.map_cons, List.sum_cons, ih2]

theorem runModules_all_ok (cids : List String) (parsed : Matches) :
    ∀ (mods : List RtModule) (ex : Bool), mods ≠ [] →
      (∀ mod ∈ mods, mod.execute parsed = Except.ok ()) →
      (runModules cids parsed mods ex).2 =
        if ex || cids.any parsed.contains_id then .exitZero
        else .exitNonZeroNoCommand := by
  intro mods
  induction mods with
  | nil => intro ex h; exact absurd rfl h
  | cons m rest ih =>
    intro ex _ hok
    have hm : m.execute parsed = Except.ok () :=
      hok m (List.mem_cons_self m rest)
    cases rest with
    | nil =>
      show (runModules cids parsed [m] ex).2 = _
      rw [runModules, hm]
      show (if ex || cids.any parsed.contains_id then
          RunResult.exitZero else .exitNonZeroNoCommand) = _
      rfl
    | cons r rest' =>
      show (runModules cids parsed (m :: r :: rest') ex).2 = _
      rw [runModules, hm]
      show (runModules cids parsed (r :: rest')
          (ex || cids.any parsed.contains_id)).2 = _
      rw [ih (ex || cids.any parsed.contains_id) (by simp)
        (fun mod hmod => hok mod (List.mem_cons_of_mem m hmod))]
      cases ex <;> cases hany : cids.any parsed.contains_id <;> rfl

/-- C3: in the dispatch loop, the first module whose `execute` fails
ends the run immediately — the outcome reports that module's name and
its failure message on the error channel with a non-zero exit status,
the modules called are exactly those up to and including the failing
one, and no later module's `execute` is called. -/
theorem dispatch_first_failure_fatal (cids : List String)
    (parsed : Matches) (pre post : List RtModule) (bad : RtModule)
    (msg : String) (ex : Bool)
    (hpre : ∀ mod ∈ pre, mod.execute parsed = Except.ok ())
    (hbad : bad.execute parsed = Except.error msg) :
    runModules cids parsed (pre ++ bad :: post) ex =
      (pre.map (fun mod => mod.name) ++ [bad.name],
       .failed bad.name msg) ∧
    (runModules cids parsed (pre ++ bad :: post) ex).2.exitCode ≠ 0 := by
  have main : ∀ (pre' : List RtModule) (ex' : Bool),
      (∀ mod ∈ pre', mod.execute parsed = Except.ok ()) →
      runModules cids parsed (pre' ++ bad :: post) ex' =
        (pre'.map (fun mod => mod.name) ++ [bad.name],
         .failed bad.name msg) := by
    intro pre'
    induction pre' with
    | nil =>
      intro ex' _
      show runModules cids parsed (bad :: post) ex' = _
      rw [runModules]
      simp only [hbad]
      rfl
    | cons p ps ih =>
      intro ex' hok
      show runModules cids parsed (p :: (ps ++ bad :: post)) ex' = _
      rw [runModules]
      simp only [hok p (List.mem_cons_self p ps)]
      rw [ih (ex' || cids.any fun id => parsed.contains_id id)
        (fun mod hmod => hok mod (List.mem_cons_of_mem p hmod))]
      rfl
  refine ⟨main pre ex hpre, ?_⟩
  rw [main pre ex hpre]
  intro hc
  cases hc

/-- Witness for C3: the failing module ends the run; the module after it
is never called. -/
theorem dispatch_first_failure_fatal_witness :
    runModules [] ⟨fun _ => false⟩
        ([⟨"one", fun _ => Except.ok ()⟩] ++
          (⟨"boom", fun _ => Except.error "bad input"⟩ : RtModule) ::
            [⟨"two", fun _ => Except.ok ()⟩]) false =
      (["one", "boom"], .failed "boom" "bad input") ∧
    (runModules [] ⟨fun _ => false⟩
        ([⟨"one", fun _ => Except.ok ()⟩] ++
          (⟨"boom", fun _ => Except.error "bad input"⟩ : RtModule) ::
            [⟨"two", fun _ => Except.ok ()⟩]) false).2.exitCode ≠ 0 :=
  dispatch_first_failure_fatal [] ⟨fun _ => false⟩
    [⟨"one", fun _ => Except.ok ()⟩] [⟨"two", fun _ => Except.ok ()⟩]
    ⟨"boom", fun _ => Except.error "bad input"⟩ "bad input" false
    (by intro mod hm; rw [List.mem_singleton] at hm; subst hm; rfl) rfl

/-- C4: when every module's `execute` succeeds, the process exits with
status 0 exactly when the parsed input contains at least one identifier
of the generated catalogue; with none present it exits non-zero. -/
theorem main_exit_zero_iff_recognized (ds : List ModuleInfo)
    (inst : ModuleInfo → RtModule) (rf : String → Option String)
    (parsed : Matches)
    (hok : ∀ d ∈ ds, (inst d).execute parsed = Except.ok ()) :
    (mainDispatch ds inst rf parsed).2.exitCode = 0 ↔
      (get_all_command_ids ds rf).any parsed.contains_id = true := by
  cases ds with
  | nil =>
    show (runModules (get_all_command_ids [] rf) parsed [] false).2.exitCode
        = 0 ↔ _
    constructor
    · intro h; cases h
    · intro h; cases h
  | cons d ds' =>
    have hmods : ((d :: ds').map inst) ≠ [] := by simp
    have hok' : ∀ mod ∈ (d :: ds').map inst,
        mod.execute parsed = Except.ok () := by
      intro mod hmod
      obtain ⟨d', hd', rfl⟩ := List.mem_map.mp hmod
      exact hok d' hd'
    show (runModules (get_all_command_ids (d :: ds') rf) parsed
        ((d :: ds').map inst) false).2.exitCode = 0 ↔ _
    rw [runModules_all_ok (get_all_command_ids (d :: ds') rf) parsed
      ((d :: ds').map inst) false hmods hok']
    cases hany : (get_all_command_ids (d :: ds') rf).any
        parsed.contains_id <;> simp [RunResult.exitCode]

/-- Witness for C4: one module whose only identifier is present in the
parsed input; every `execute` succeeds and the exit status is 0. -/
theorem main_exit_zero_iff_recognized_witness :
    (mainDispatch [⟨"m", "M"⟩]
        (fun _ => ⟨"m", fun _ => Except.ok ()⟩)
        (fun _ => some "x.arg(Arg::new(\"flag\"))")
        ⟨fun s => s == "flag"⟩).2.exitCode = 0 :=
  (main_exit_zero_iff_recognized [⟨"m", "M"⟩]
      (fun _ => ⟨"m", fun _ => Except.ok ()⟩)
      (fun _ => some "x.arg(Arg::new(\"flag\"))")
      ⟨fun s => s == "flag"⟩
      (fun _ _ => rfl)).mpr (by decide)

/-- C5 (refuted as stated): the generated artifacts are NOT a function
of the directory tree's contents alone — two enumeration orders of the
same two module directories (`fs::read_dir` fixes no order for a given
tree) make the scan-and-generate step emit different bytes.  The two
entry lists below hold exactly the same entries (they are permutations
of one another), yet the emitted artifact pair differs. -/
theorem generator_depends_on_enumeration_order :
    [RootEntry.dir ⟨"alpha",
        .readable "pub struct Alpha;\nimpl ToolModule for Alpha"⟩,
     RootEntry.dir ⟨"beta",
        .readable "pub struct Beta;\nimpl ToolModule for Beta"⟩].Perm
      [RootEntry.dir ⟨"beta",
          .readable "pub struct Beta;\nimpl ToolModule for Beta"⟩,
       RootEntry.dir ⟨"alpha",
          .readable "pub struct Alpha;\nimpl ToolModule for Alpha"⟩] ∧
    generatePipeline "/proj"
        (.readable
          [RootEntry.dir ⟨"alpha",
              .readable "pub struct Alpha;\nimpl ToolModule for Alpha"⟩,
           RootEntry.dir ⟨"beta",
              .readable "pub struct Beta;\nimpl ToolModule for Beta"⟩]) ≠
      generatePipeline "/proj"
        (.readable
          [RootEntry.dir ⟨"beta",
              .readable "pub struct Beta;\nimpl ToolModule for Beta"⟩,
           RootEntry.dir ⟨"alpha",
              .readable "pub struct Alpha;\nimpl ToolModule for Alpha"⟩]) := by
  constructor
  · exact List.Perm.swap _ _ _
  · decide

end MicroSwiss
